import Mathlib

/-!
# Verification of gameplay `HeightField` (src/gameplay/src/HeightField.cpp)

A shallow embedding of the height-field module of the GamePlay engine:

* `GamePlay.HeightField` — the elevation grid (`_cols`, `_rows`, `_array`);
* `GamePlay.HeightField.getHeight` — bilinear sampling with boundary
  clamping (lines 177–214 of `HeightField.cpp`);
* `GamePlay.normalizedHeightPacked` — the 24-bit packed-channel height
  decoder (lines 28–36);
* `GamePlay.imageLoad` / `GamePlay.createFromRawBytes` / `GamePlay.create` —
  the image loader, the RAW loader and the extension dispatcher
  (lines 48–170).

Machine floats are modelled by exact rationals (`ℚ`); `unsigned int`
quantities by `ℕ`.  The C++ expression `_cols - 1` is unsigned arithmetic:
for `_cols ≥ 1` (the regime of every theorem below) it coincides with
truncated subtraction on `ℕ`, which is what the embedding uses.
-/

namespace GamePlay

/-- The elevation grid: column count `_cols`, row count `_rows`, and the
backing buffer `_array` of heights.  Cell `(x, y)` lives at index
`x + y * cols`. -/
structure HeightField where
  cols : ℕ
  rows : ℕ
  array : List ℚ

/-- Out-of-buffer reads return a junk value; the safety theorem for
`getHeightIndices` shows `getHeight` never relies on it. -/
def HeightField.read (hf : HeightField) (i : ℕ) : ℚ :=
  hf.array.getD i 0

/-- Lines 180–181: `v < 0 ? 0 : (v > (n-1) ? (n-1) : v)` — clamp a
coordinate into `[0, n-1]`. -/
def clampCoord (v : ℚ) (n : ℕ) : ℚ :=
  if v < 0 then 0 else if v > ((n - 1 : ℕ) : ℚ) then ((n - 1 : ℕ) : ℚ) else v

/-- Lines 183–213 of `HeightField::getHeight`, after the two clamping
assignments: `x1 = column` truncates the (now nonnegative) float to an
unsigned int, `modf` extracts the fractional part, and the four branches
select corner samples. -/
def HeightField.sampleClamped (hf : HeightField) (column row : ℚ) : ℚ :=
  let x1 : ℕ := (⌊column⌋).toNat
  let y1 : ℕ := (⌊row⌋).toNat
  let x2 : ℕ := x1 + 1
  let y2 : ℕ := y1 + 1
  let xFactor : ℚ := Int.fract column
  let yFactor : ℚ := Int.fract row
  let xFactorI : ℚ := 1 - xFactor
  let yFactorI : ℚ := 1 - yFactor
  if x2 ≥ hf.cols ∧ y2 ≥ hf.rows then
    hf.read (x1 + y1 * hf.cols)
  else if x2 ≥ hf.cols then
    hf.read (x1 + y1 * hf.cols) * yFactorI + hf.read (x1 + y2 * hf.cols) * yFactor
  else if y2 ≥ hf.rows then
    hf.read (x1 + y1 * hf.cols) * xFactorI + hf.read (x2 + y1 * hf.cols) * xFactor
  else
    hf.read (x1 + y1 * hf.cols) * (xFactorI * yFactorI) +
      hf.read (x1 + y2 * hf.cols) * (xFactorI * yFactor) +
      hf.read (x2 + y2 * hf.cols) * (xFactor * yFactor) +
      hf.read (x2 + y1 * hf.cols) * (xFactor * yFactorI)

/-- `HeightField::getHeight` (lines 177–214): clamp both coordinates,
then sample. -/
def HeightField.getHeight (hf : HeightField) (column row : ℚ) : ℚ :=
  hf.sampleClamped (clampCoord column hf.cols) (clampCoord row hf.rows)

/-- The buffer indices `getHeight` reads, branch by branch — the memory
footprint of lines 193–213.  The branch structure and index expressions
mirror `sampleClamped` exactly. -/
def HeightField.getHeightIndices (hf : HeightField) (column row : ℚ) : List ℕ :=
  let column := clampCoord column hf.cols
  let row := clampCoord row hf.rows
  let x1 : ℕ := (⌊column⌋).toNat
  let y1 : ℕ := (⌊row⌋).toNat
  let x2 : ℕ := x1 + 1
  let y2 : ℕ := y1 + 1
  if x2 ≥ hf.cols ∧ y2 ≥ hf.rows then
    [x1 + y1 * hf.cols]
  else if x2 ≥ hf.cols then
    [x1 + y1 * hf.cols, x1 + y2 * hf.cols]
  else if y2 ≥ hf.rows then
    [x1 + y1 * hf.cols, x2 + y1 * hf.cols]
  else
    [x1 + y1 * hf.cols, x1 + y2 * hf.cols, x2 + y2 * hf.cols, x2 + y1 * hf.cols]

/-- `normalizedHeightPacked` (lines 28–36).  The float literal
`0.00390625f` is exactly `1/256`, and all arithmetic on byte-range
inputs is exact in 32-bit floats, so the rational formula is the float
one. -/
def normalizedHeightPacked (r g b : ℚ) : ℚ :=
  (256 * r + g + (1 / 256) * b) / 65536

/-- Spec-side restatement of `getHeight` (claim C1, spec §4.1): clamp the
coordinates into `[0, columns-1]` and `[0, rows-1]` with min/max, set
`x1 = floor(column)`, `x2 = x1+1`, `xFrac = column - x1` (likewise for
rows), and apply the four-branch edge policy, where a branch fires when
`x2`/`y2` "exceeds the last valid index" (`> n - 1`), with the spec's
weight expressions. -/
def getHeightSpec (hf : HeightField) (column row : ℚ) : ℚ :=
  let column := max 0 (min column ((hf.cols - 1 : ℕ) : ℚ))
  let row := max 0 (min row ((hf.rows - 1 : ℕ) : ℚ))
  let x1 : ℕ := (⌊column⌋).toNat
  let y1 : ℕ := (⌊row⌋).toNat
  let x2 : ℕ := x1 + 1
  let y2 : ℕ := y1 + 1
  let xFrac : ℚ := column - (x1 : ℚ)
  let yFrac : ℚ := row - (y1 : ℚ)
  if x2 > hf.cols - 1 ∧ y2 > hf.rows - 1 then
    hf.read (x1 + y1 * hf.cols)
  else if x2 > hf.cols - 1 then
    hf.read (x1 + y1 * hf.cols) * (1 - yFrac) + hf.read (x1 + y2 * hf.cols) * yFrac
  else if y2 > hf.rows - 1 then
    hf.read (x1 + y1 * hf.cols) * (1 - xFrac) + hf.read (x2 + y1 * hf.cols) * xFrac
  else
    hf.read (x1 + y1 * hf.cols) * ((1 - xFrac) * (1 - yFrac)) +
      hf.read (x1 + y2 * hf.cols) * ((1 - xFrac) * yFrac) +
      hf.read (x2 + y2 * hf.cols) * (xFrac * yFrac) +
      hf.read (x2 + y1 * hf.cols) * (xFrac * (1 - yFrac))

/-- `Image::Format` as far as this module inspects it (lines 75–87):
`RGB` and `RGBA` are handled, everything else is rejected. -/
inductive PixelFormat where
  | RGB
  | RGBA
  | other

/-- The decoded image handed over by the `Image` collaborator: format
tag, dimensions, and the pixel byte buffer (`Image::getData`). -/
structure Image where
  format : PixelFormat
  width : ℕ
  height : ℕ
  data : ℕ → ℕ

/-- The common population loop shape of both loaders (lines 94–101 and
141–159): `for (y = h-1; y >= 0; --y) for (x = 0; x < w; ++x)
heights[i++] = g y x` — row `h-1` of the source is written first. -/
def rowsDown (w : ℕ) (g : ℕ → ℕ → ℚ) : ℕ → List ℚ
  | 0 => []
  | y + 1 => (List.range w).map (g y) ++ rowsDown w g y

/-- The image branch of `HeightField::create` (lines 74–103), given the
decoded image: the `switch` on the format picks the pixel stride or
rejects, then every pixel's first three channel bytes feed
`normalizedHeightPacked`. -/
def imageLoad (image : Image) (minHeight maxHeight : ℚ) : Option HeightField :=
  let heightScale := maxHeight - minHeight
  let pixelSize? : Option ℕ :=
    match image.format with
    | .RGB => some 3
    | .RGBA => some 4
    | .other => none
  match pixelSize? with
  | none => none
  | some pixelSize =>
    some ⟨image.width, image.height,
      rowsDown image.width (fun y x =>
        minHeight + normalizedHeightPacked
          (image.data ((y * image.width + x) * pixelSize))
          (image.data ((y * image.width + x) * pixelSize + 1))
          (image.data ((y * image.width + x) * pixelSize + 2)) * heightScale)
        image.height⟩

/-- The RAW branch of `HeightField::create` (lines 108–160), with the
file already read into `bytes` (`fileSize = bytes.length`).  In the
source the `width`/`height`/`maxHeight` parameter check precedes the
`FileSystem::readAll` call; in this pure model the order cannot change
the resulting value.  The 16-bit decode `bytes[idx] | bytes[idx+1] << 8`
is kept as a bitwise or. -/
def createFromRawBytes (bytes : List ℕ) (width height : ℕ)
    (minHeight maxHeight : ℚ) : Option HeightField :=
  if width < 2 ∨ height < 2 ∨ maxHeight < 0 then none
  else
    let heightScale := maxHeight - minHeight
    let fileSize := bytes.length
    let bits := (fileSize / (width * height)) * 8
    if bits ≠ 8 ∧ bits ≠ 16 then none
    else if bits = 16 then
      some ⟨width, height,
        rowsDown width (fun y x =>
          minHeight + (((bytes.getD ((y * width + x) * 2) 0 |||
            bytes.getD ((y * width + x) * 2 + 1) 0 <<< 8 : ℕ) : ℚ) / 65535) * heightScale)
          height⟩
    else
      some ⟨width, height,
        rowsDown width (fun y x =>
          minHeight + (((bytes.getD (y * width + x) 0 : ℕ) : ℚ) / 255) * heightScale)
          height⟩

/-- ASCII `toupper` on byte-valued `char`s: 'a'..'z' (97–122) map down
by 32, everything else is unchanged. -/
def toupper (c : ℕ) : ℕ :=
  if 97 ≤ c ∧ c ≤ 122 then c - 32 else c

/-- `HeightField::create(path, width, height, minHeight, maxHeight)`
(lines 48–170).  `path` is the C string as its list of byte values;
`readAll` and `imageCreate` model the `FileSystem` and `Image`
collaborators as pure maps into `Option`.  `GP_ASSERT(maxHeight >= minHeight)`
is a debug-only assertion, not a runtime check, and is not modelled.
Byte codes: '.' = 46, 'P' = 80, 'N' = 78, 'G' = 71, 'R' = 82,
'A' = 65, 'W' = 87. -/
def create (readAll : List ℕ → Option (List ℕ))
    (imageCreate : List ℕ → Option Image)
    (path : List ℕ) (width height : ℕ) (minHeight maxHeight : ℚ) :
    Option HeightField :=
  if path.length ≤ 4 then none
  else
    let ext := path.drop (path.length - 4)
    if ext.getD 0 0 = 46 ∧ toupper (ext.getD 1 0) = 80 ∧
        toupper (ext.getD 2 0) = 78 ∧ toupper (ext.getD 3 0) = 71 then
      match imageCreate path with
      | none => none
      | some image => imageLoad image minHeight maxHeight
    else if ext.getD 0 0 = 46 ∧ toupper (ext.getD 1 0) = 82 ∧
        toupper (ext.getD 2 0) = 65 ∧ toupper (ext.getD 3 0) = 87 then
      match readAll path with
      | none => none
      | some bytes => createFromRawBytes bytes width height minHeight maxHeight
    else none

/-- The grayscale height expression of the source comment (lines 30–34):
an 8-bit grayscale value `x` read as the normalized height `x / 256`,
the reference point of the documented `2^-8 + 2^-16` error bound. -/
def grayscaleHeight (x : ℚ) : ℚ := x / 256

/-- The 24-bit packed integer `2^16·r + 2^8·g + b` that a purpose-built
packed heightmap stores across its three channels. -/
def packedHeight24 (r g b : ℕ) : ℕ := 65536 * r + 256 * g + b

/-! ## Clamping lemmas -/

theorem clampCoord_nonneg (v : ℚ) (n : ℕ) : 0 ≤ clampCoord v n := by
  unfold clampCoord
  split_ifs with h1 h2
  · exact le_refl 0
  · positivity
  · linarith

theorem clampCoord_le (v : ℚ) (n : ℕ) : clampCoord v n ≤ ((n - 1 : ℕ) : ℚ) := by
  unfold clampCoord
  split_ifs with h1 h2
  · positivity
  · exact le_refl _
  · linarith

theorem clampCoord_of_neg {v : ℚ} (n : ℕ) (h : v < 0) : clampCoord v n = 0 := by
  unfold clampCoord
  rw [if_pos h]

theorem clampCoord_zero (n : ℕ) : clampCoord 0 n = 0 := by
  unfold clampCoord
  have hn : (0 : ℚ) ≤ ((n - 1 : ℕ) : ℚ) := Nat.cast_nonneg _
  split_ifs <;> first | rfl | linarith

theorem clampCoord_of_gt {v : ℚ} {n : ℕ} (h : ((n - 1 : ℕ) : ℚ) < v) :
    clampCoord v n = ((n - 1 : ℕ) : ℚ) := by
  unfold clampCoord
  have hn : (0 : ℚ) ≤ ((n - 1 : ℕ) : ℚ) := Nat.cast_nonneg _
  split_ifs <;> first | rfl | linarith

theorem clampCoord_boundary (n : ℕ) :
    clampCoord ((n - 1 : ℕ) : ℚ) n = ((n - 1 : ℕ) : ℚ) := by
  unfold clampCoord
  have hn : (0 : ℚ) ≤ ((n - 1 : ℕ) : ℚ) := Nat.cast_nonneg _
  split_ifs <;> first | rfl | linarith

theorem clampCoord_of_mem {v : ℚ} {n : ℕ} (h0 : 0 ≤ v)
    (h1 : v ≤ ((n - 1 : ℕ) : ℚ)) : clampCoord v n = v := by
  unfold clampCoord
  split_ifs with ha hb
  · linarith
  · linarith
  · rfl

/-- C3: out-of-range coordinates saturate to the boundary: for
`column < 0` the result equals the result at `column = 0`; for
`row < 0`, at `row = 0`; for `column > columns - 1`, at
`column = columns - 1`; and for `row > rows - 1`, at `row = rows - 1` —
no extrapolation, no error. -/
theorem getHeight_clamping_law (hf : HeightField) (column row : ℚ)
    (hc : 1 ≤ hf.cols) (hr : 1 ≤ hf.rows) :
    (column < 0 → hf.getHeight column row = hf.getHeight 0 row) ∧
    (row < 0 → hf.getHeight column row = hf.getHeight column 0) ∧
    (((hf.cols - 1 : ℕ) : ℚ) < column →
      hf.getHeight column row = hf.getHeight ((hf.cols - 1 : ℕ) : ℚ) row) ∧
    (((hf.rows - 1 : ℕ) : ℚ) < row →
      hf.getHeight column row = hf.getHeight column ((hf.rows - 1 : ℕ) : ℚ)) := by
  refine ⟨fun h => ?_, fun h => ?_, fun h => ?_, fun h => ?_⟩
  · rw [HeightField.getHeight, HeightField.getHeight, clampCoord_of_neg _ h,
      clampCoord_zero]
  · rw [HeightField.getHeight, HeightField.getHeight, clampCoord_of_neg _ h,
      clampCoord_zero]
  · rw [HeightField.getHeight, HeightField.getHeight, clampCoord_of_gt h,
      clampCoord_boundary]
  · rw [HeightField.getHeight, HeightField.getHeight, clampCoord_of_gt h,
      clampCoord_boundary]

theorem clampCoord_eq_minmax (v : ℚ) (n : ℕ) :
    clampCoord v n = max 0 (min v ((n - 1 : ℕ) : ℚ)) := by
  unfold clampCoord
  have hn : (0 : ℚ) ≤ ((n - 1 : ℕ) : ℚ) := Nat.cast_nonneg _
  rw [max_def, min_def]
  split_ifs <;> linarith

/-- C1: `getHeight` computes exactly the clamp / floor / four-branch
edge policy stated by the spec: the corner sample when `x2` and `y2`
both exceed the last valid indices, the two single-axis linear
interpolations when only one of them does, and otherwise the full
bilinear blend with weights `(1-xFrac)(1-yFrac)`, `(1-xFrac)·yFrac`,
`xFrac·yFrac`, `xFrac·(1-yFrac)`. -/
theorem getHeight_eq_getHeightSpec (hf : HeightField) (column row : ℚ)
    (hc : 1 ≤ hf.cols) (hr : 1 ≤ hf.rows) :
    hf.getHeight column row = getHeightSpec hf column row := by
  simp only [HeightField.getHeight, HeightField.sampleClamped, getHeightSpec,
    ← clampCoord_eq_minmax]
  set cc := clampCoord column hf.cols with hcc
  set rr := clampCoord row hf.rows with hrr
  have h0c : 0 ≤ cc := clampCoord_nonneg _ _
  have h0r : 0 ≤ rr := clampCoord_nonneg _ _
  have hfx : ((⌊cc⌋.toNat : ℕ) : ℚ) = ((⌊cc⌋ : ℤ) : ℚ) := by
    exact_mod_cast congrArg (Int.cast : ℤ → ℚ)
      (Int.toNat_of_nonneg (Int.floor_nonneg.mpr h0c))
  have hfy : ((⌊rr⌋.toNat : ℕ) : ℚ) = ((⌊rr⌋ : ℤ) : ℚ) := by
    exact_mod_cast congrArg (Int.cast : ℤ → ℚ)
      (Int.toNat_of_nonneg (Int.floor_nonneg.mpr h0r))
  have hfract_c : Int.fract cc = cc - ((⌊cc⌋.toNat : ℕ) : ℚ) := by
    rw [hfx]; rfl
  have hfract_r : Int.fract rr = rr - ((⌊rr⌋.toNat : ℕ) : ℚ) := by
    rw [hfy]; rfl
  have e1 : (⌊cc⌋.toNat + 1 ≥ hf.cols) = (⌊cc⌋.toNat + 1 > hf.cols - 1) := by
    apply propext; omega
  have e2 : (⌊rr⌋.toNat + 1 ≥ hf.rows) = (⌊rr⌋.toNat + 1 > hf.rows - 1) := by
    apply propext; omega
  rw [hfract_c, hfract_r]
  simp only [e1, e2]

/-- Witness for C1 on a concrete 2×2 grid at a fractional coordinate. -/
theorem getHeight_eq_getHeightSpec_witness :
    1 ≤ (HeightField.mk 2 2 [0, 1, 2, 3]).cols ∧
    1 ≤ (HeightField.mk 2 2 [0, 1, 2, 3]).rows ∧
    (HeightField.mk 2 2 [0, 1, 2, 3]).getHeight (1/2) (1/2) =
      getHeightSpec (HeightField.mk 2 2 [0, 1, 2, 3]) (1/2) (1/2) := by
  refine ⟨by norm_num, by norm_num, ?_⟩
  exact getHeight_eq_getHeightSpec (HeightField.mk 2 2 [0, 1, 2, 3]) (1/2) (1/2)
    (by norm_num) (by norm_num)

/-- C2: `getHeight` at an integral in-bounds coordinate pair returns
exactly the stored sample `heights[x + y * columns]` — no interpolation
error at grid points. -/
theorem getHeight_int_exact (hf : HeightField) (x y : ℕ)
    (hc : 1 ≤ hf.cols) (hr : 1 ≤ hf.rows)
    (hx : x ≤ hf.cols - 1) (hy : y ≤ hf.rows - 1) :
    hf.getHeight x y = hf.array.getD (x + y * hf.cols) 0 := by
  have hx' : ((x : ℚ)) ≤ ((hf.cols - 1 : ℕ) : ℚ) := by exact_mod_cast hx
  have hy' : ((y : ℚ)) ≤ ((hf.rows - 1 : ℕ) : ℚ) := by exact_mod_cast hy
  rw [HeightField.getHeight, clampCoord_of_mem (Nat.cast_nonneg x) hx',
    clampCoord_of_mem (Nat.cast_nonneg y) hy']
  unfold HeightField.sampleClamped
  simp only [Int.floor_natCast, Int.toNat_natCast, Int.fract_natCast,
    sub_zero, mul_one, mul_zero, zero_mul, one_mul, add_zero]
  split_ifs <;> rfl

/-- Witness for C2: the bottom-right corner of a 4×4 grid (`column = 3`,
`row = 3`) yields the raw stored corner sample. -/
theorem getHeight_int_exact_witness :
    1 ≤ (HeightField.mk 4 4 ((List.range 16).map Nat.cast)).cols ∧
    (3 : ℕ) ≤ (HeightField.mk 4 4 ((List.range 16).map Nat.cast)).cols - 1 ∧
    (HeightField.mk 4 4 ((List.range 16).map Nat.cast)).getHeight 3 3 =
      (HeightField.mk 4 4 ((List.range 16).map Nat.cast)).array.getD (3 + 3 * 4) 0 := by
  refine ⟨by norm_num, by norm_num, ?_⟩
  exact getHeight_int_exact (HeightField.mk 4 4 ((List.range 16).map Nat.cast))
    3 3 (by norm_num) (by norm_num) (by norm_num) (by norm_num)

theorem index_lt_of_bounds {a b cols rows : ℕ} (ha : a < cols) (hb : b < rows) :
    a + b * cols < cols * rows := by
  calc a + b * cols < cols + b * cols := by omega
    _ = (b + 1) * cols := by ring
    _ ≤ rows * cols := Nat.mul_le_mul_right _ hb
    _ = cols * rows := Nat.mul_comm _ _

/-- The floor of a clamped coordinate stays below the last valid index
plus one. -/
theorem floor_clampCoord_le (v : ℚ) (n : ℕ) :
    (⌊clampCoord v n⌋).toNat ≤ n - 1 := by
  have h1 : clampCoord v n ≤ ((n - 1 : ℕ) : ℚ) := clampCoord_le _ _
  have h2 : ⌊clampCoord v n⌋ ≤ ((n - 1 : ℕ) : ℤ) := by
    have := Int.floor_le_floor h1
    rwa [Int.floor_natCast] at this
  exact Int.toNat_le.mpr h2

/-- C10: on any grid with `columns ≥ 1` and `rows ≥ 1` — including the
degenerate single-column or single-row grids — every buffer index
computed inside `getHeight`, in whichever branch is taken, lies strictly
below `columns * rows`: no read escapes the backing buffer. -/
theorem getHeightIndices_in_bounds (hf : HeightField) (column row : ℚ)
    (hc : 1 ≤ hf.cols) (hr : 1 ≤ hf.rows) :
    ∀ i ∈ hf.getHeightIndices column row, i < hf.cols * hf.rows := by
  intro i hi
  simp only [HeightField.getHeightIndices] at hi
  have hx1 : (⌊clampCoord column hf.cols⌋).toNat ≤ hf.cols - 1 :=
    floor_clampCoord_le _ _
  have hy1 : (⌊clampCoord row hf.rows⌋).toNat ≤ hf.rows - 1 :=
    floor_clampCoord_le _ _
  set x1 := (⌊clampCoord column hf.cols⌋).toNat with hx1def
  set y1 := (⌊clampCoord row hf.rows⌋).toNat with hy1def
  have hxlt : x1 < hf.cols := by omega
  have hylt : y1 < hf.rows := by omega
  split_ifs at hi with h1 h2 h3
  · simp only [List.mem_singleton] at hi
    subst hi
    exact index_lt_of_bounds hxlt hylt
  · simp only [List.mem_cons, List.not_mem_nil, or_false] at hi
    have hy2 : y1 + 1 < hf.rows := by
      rcases not_and_or.mp h1 with h | h
      · exact absurd h2 h
      · omega
    rcases hi with hi | hi <;> subst hi
    · exact index_lt_of_bounds hxlt hylt
    · exact index_lt_of_bounds hxlt hy2
  · simp only [List.mem_cons, List.not_mem_nil, or_false] at hi
    have hx2 : x1 + 1 < hf.cols := by omega
    rcases hi with hi | hi <;> subst hi
    · exact index_lt_of_bounds hxlt hylt
    · exact index_lt_of_bounds hx2 hylt
  · simp only [List.mem_cons, List.not_mem_nil, or_false] at hi
    have hx2 : x1 + 1 < hf.cols := by omega
    have hy2 : y1 + 1 < hf.rows := by omega
    rcases hi with hi | hi | hi | hi <;> subst hi
    · exact index_lt_of_bounds hxlt hylt
    · exact index_lt_of_bounds hxlt hy2
    · exact index_lt_of_bounds hx2 hy2
    · exact index_lt_of_bounds hx2 hylt

/-- Witness for C10 on a degenerate 1×1 grid at a far out-of-range
coordinate pair. -/
theorem getHeightIndices_in_bounds_witness :
    1 ≤ (HeightField.mk 1 1 [5]).cols ∧ 1 ≤ (HeightField.mk 1 1 [5]).rows ∧
    ∀ i ∈ (HeightField.mk 1 1 [5]).getHeightIndices 7 (-2),
      i < (HeightField.mk 1 1 [5]).cols * (HeightField.mk 1 1 [5]).rows := by
  refine ⟨by norm_num, by norm_num, ?_⟩
  exact getHeightIndices_in_bounds (HeightField.mk 1 1 [5]) 7 (-2)
    (by norm_num) (by norm_num)

/-- Witness for C3 on a concrete 2×2 grid at out-of-range coordinates. -/
theorem getHeight_clamping_law_witness :
    1 ≤ (HeightField.mk 2 2 [0, 1, 2, 3]).cols ∧
    1 ≤ (HeightField.mk 2 2 [0, 1, 2, 3]).rows ∧
    ((-3 : ℚ) < 0 →
      (HeightField.mk 2 2 [0, 1, 2, 3]).getHeight (-3) (5/2) =
        (HeightField.mk 2 2 [0, 1, 2, 3]).getHeight 0 (5/2)) := by
  refine ⟨by norm_num, by norm_num, ?_⟩
  exact (getHeight_clamping_law (HeightField.mk 2 2 [0, 1, 2, 3]) (-3) (5/2)
    (by norm_num) (by norm_num)).1

/-- C5: on byte-range inputs, `normalizedHeightPacked` is the fixed-point
formula `(256·r + g + b/256) / 65536`, lies in `[0, 1)`, and is strictly
monotone with the 256 : 1 : 1/256 priority ordering: an increase of `r`
dominates any byte-range change of `g` and `b`, an increase of `g` (at
fixed `r`) dominates any change of `b`, and an increase of `b` alone
still increases the result. -/
theorem normalizedHeightPacked_props (r g b r' g' b' : ℕ)
    (hr : r ≤ 255) (hg : g ≤ 255) (hb : b ≤ 255)
    (hr' : r' ≤ 255) (hg' : g' ≤ 255) (hb' : b' ≤ 255) :
    normalizedHeightPacked r g b = (256 * (r : ℚ) + (g : ℚ) + (b : ℚ) / 256) / 65536 ∧
    0 ≤ normalizedHeightPacked r g b ∧
    normalizedHeightPacked r g b < 1 ∧
    (r < r' → normalizedHeightPacked r g b < normalizedHeightPacked r' g' b') ∧
    (g < g' → normalizedHeightPacked r g b < normalizedHeightPacked r g' b') ∧
    (b < b' → normalizedHeightPacked r g b < normalizedHeightPacked r g b') := by
  have cr : (r : ℚ) ≤ 255 := by exact_mod_cast hr
  have cg : (g : ℚ) ≤ 255 := by exact_mod_cast hg
  have cb : (b : ℚ) ≤ 255 := by exact_mod_cast hb
  have cg0 : (0 : ℚ) ≤ (g' : ℚ) := Nat.cast_nonneg g'
  have cb0 : (0 : ℚ) ≤ (b' : ℚ) := Nat.cast_nonneg b'
  have cb1 : (0 : ℚ) ≤ (b : ℚ) := Nat.cast_nonneg b
  have cg1 : (0 : ℚ) ≤ (g : ℚ) := Nat.cast_nonneg g
  refine ⟨by unfold normalizedHeightPacked; ring, ?_, ?_, ?_, ?_, ?_⟩
  · unfold normalizedHeightPacked; positivity
  · unfold normalizedHeightPacked; linarith
  · intro h
    have h' : (r : ℚ) + 1 ≤ (r' : ℚ) := by exact_mod_cast h
    unfold normalizedHeightPacked
    have cb' : (b' : ℚ) ≤ 255 := by exact_mod_cast hb'
    linarith
  · intro h
    have h' : (g : ℚ) + 1 ≤ (g' : ℚ) := by exact_mod_cast h
    unfold normalizedHeightPacked
    have cb' : (b' : ℚ) ≤ 255 := by exact_mod_cast hb'
    linarith
  · intro h
    have h' : (b : ℚ) + 1 ≤ (b' : ℚ) := by exact_mod_cast h
    unfold normalizedHeightPacked
    linarith

/-- Witness for C5 at `(r,g,b) = (0,0,0)` against `(r',g',b') = (1,1,1)`. -/
theorem normalizedHeightPacked_props_witness :
    (0 : ℕ) ≤ 255 ∧ (1 : ℕ) ≤ 255 ∧
    (normalizedHeightPacked ((0 : ℕ) : ℚ) ((0 : ℕ) : ℚ) ((0 : ℕ) : ℚ) =
        (256 * ((0 : ℕ) : ℚ) + ((0 : ℕ) : ℚ) + ((0 : ℕ) : ℚ) / 256) / 65536 ∧
      0 ≤ normalizedHeightPacked ((0 : ℕ) : ℚ) ((0 : ℕ) : ℚ) ((0 : ℕ) : ℚ) ∧
      normalizedHeightPacked ((0 : ℕ) : ℚ) ((0 : ℕ) : ℚ) ((0 : ℕ) : ℚ) < 1 ∧
      ((0 : ℕ) < 1 → normalizedHeightPacked ((0 : ℕ) : ℚ) ((0 : ℕ) : ℚ) ((0 : ℕ) : ℚ) <
        normalizedHeightPacked ((1 : ℕ) : ℚ) ((1 : ℕ) : ℚ) ((1 : ℕ) : ℚ)) ∧
      ((0 : ℕ) < 1 → normalizedHeightPacked ((0 : ℕ) : ℚ) ((0 : ℕ) : ℚ) ((0 : ℕ) : ℚ) <
        normalizedHeightPacked ((0 : ℕ) : ℚ) ((1 : ℕ) : ℚ) ((1 : ℕ) : ℚ)) ∧
      ((0 : ℕ) < 1 → normalizedHeightPacked ((0 : ℕ) : ℚ) ((0 : ℕ) : ℚ) ((0 : ℕ) : ℚ) <
        normalizedHeightPacked ((0 : ℕ) : ℚ) ((0 : ℕ) : ℚ) ((1 : ℕ) : ℚ))) :=
  ⟨by norm_num, by norm_num,
    normalizedHeightPacked_props 0 0 0 1 1 1 (by norm_num) (by norm_num)
      (by norm_num) (by norm_num) (by norm_num) (by norm_num)⟩

/-- C6: for grayscale inputs `r = g = b = x` the packed formula differs
from the grayscale height expression `x/256` by a relative error of at
most `2^-8 + 2^-16` (it is exactly that), and the formula is exact for
purpose-built 24-bit packed heightmaps: it is precisely
`packedHeight24 r g b / 2^24`. -/
theorem normalizedHeightPacked_grayscale_error (x r g b : ℕ) (hx : x ≤ 255) :
    |normalizedHeightPacked x x x - grayscaleHeight x| ≤
      (((2 : ℚ) ^ 8)⁻¹ + ((2 : ℚ) ^ 16)⁻¹) * grayscaleHeight x ∧
    normalizedHeightPacked r g b = (packedHeight24 r g b : ℚ) / 2 ^ 24 := by
  constructor
  · have h1 : normalizedHeightPacked x x x - grayscaleHeight x =
        (((2 : ℚ) ^ 8)⁻¹ + ((2 : ℚ) ^ 16)⁻¹) * grayscaleHeight x := by
      unfold normalizedHeightPacked grayscaleHeight
      ring
    have h2 : (0 : ℚ) ≤ grayscaleHeight x := by
      unfold grayscaleHeight; positivity
    rw [h1, abs_of_nonneg (mul_nonneg (by positivity) h2)]
  · unfold normalizedHeightPacked packedHeight24
    push_cast
    ring

/-- Witness for C6 at a mid-gray value `x = 128` and the packed triple
`(1, 2, 3)`. -/
theorem normalizedHeightPacked_grayscale_error_witness :
    (128 : ℕ) ≤ 255 ∧
    (|normalizedHeightPacked ((128 : ℕ) : ℚ) ((128 : ℕ) : ℚ) ((128 : ℕ) : ℚ) -
        grayscaleHeight ((128 : ℕ) : ℚ)| ≤
      (((2 : ℚ) ^ 8)⁻¹ + ((2 : ℚ) ^ 16)⁻¹) * grayscaleHeight ((128 : ℕ) : ℚ) ∧
      normalizedHeightPacked ((1 : ℕ) : ℚ) ((2 : ℕ) : ℚ) ((3 : ℕ) : ℚ) =
        (packedHeight24 1 2 3 : ℚ) / 2 ^ 24) :=
  ⟨by norm_num, normalizedHeightPacked_grayscale_error 128 1 2 3 (by norm_num)⟩

/-! ## Loader lemmas -/

theorem rowsDown_length (w : ℕ) (g : ℕ → ℕ → ℚ) (h : ℕ) :
    (rowsDown w g h).length = h * w := by
  induction h with
  | zero => simp [rowsDown]
  | succ y ih =>
    simp only [rowsDown, List.length_append, List.length_map,
      List.length_range, ih]
    ring

/-- The population loop writes the source row `h - 1 - r` into grid row
`r`: element `r * w + x` of the produced buffer. -/
theorem rowsDown_getD (w : ℕ) (g : ℕ → ℕ → ℚ) (h r x : ℕ)
    (hr : r < h) (hx : x < w) :
    (rowsDown w g h).getD (r * w + x) 0 = g (h - 1 - r) x := by
  induction h generalizing r with
  | zero => omega
  | succ y ih =>
    cases r with
    | zero =>
      rw [Nat.zero_mul, Nat.zero_add, rowsDown,
        List.getD_append _ _ _ _ (by simpa using hx),
        List.getD_eq_getElem _ _ (by simpa using hx)]
      simp
    | succ r' =>
      have hlen : ((List.range w).map (g y)).length = w := by simp
      have hidx : (r' + 1) * w + x = w + (r' * w + x) := by
        rw [Nat.succ_mul]; omega
      rw [rowsDown, hidx, List.getD_append_right _ _ _ _ (by omega)]
      rw [hlen]
      have : w + (r' * w + x) - w = r' * w + x := by omega
      rw [this, ih r' (by omega)]
      have : y - 1 - r' = y + 1 - 1 - (r' + 1) := by omega
      rw [this]

/-- C4: an image whose format is 3- or 4-channel loads into a grid of
the image's dimensions, where grid cell `(x, r)` is
`minHeight + normalizedHeightPacked(R,G,B) * (maxHeight - minHeight)`
for the first three channel bytes of the pixel at column `x` of image
row `height - 1 - r` (bottom image row becomes grid row 0, alpha is
ignored); any other format yields no result. -/
theorem imageLoad_spec (image : Image) (minHeight maxHeight : ℚ) (x r : ℕ)
    (hx : x < image.width) (hr : r < image.height) :
    (image.format = PixelFormat.other → imageLoad image minHeight maxHeight = none) ∧
    (image.format = PixelFormat.RGB →
      ∃ hf, imageLoad image minHeight maxHeight = some hf ∧
        hf.cols = image.width ∧ hf.rows = image.height ∧
        hf.array.getD (x + r * image.width) 0 =
          minHeight + normalizedHeightPacked
            (image.data (((image.height - 1 - r) * image.width + x) * 3))
            (image.data (((image.height - 1 - r) * image.width + x) * 3 + 1))
            (image.data (((image.height - 1 - r) * image.width + x) * 3 + 2)) *
            (maxHeight - minHeight)) ∧
    (image.format = PixelFormat.RGBA →
      ∃ hf, imageLoad image minHeight maxHeight = some hf ∧
        hf.cols = image.width ∧ hf.rows = image.height ∧
        hf.array.getD (x + r * image.width) 0 =
          minHeight + normalizedHeightPacked
            (image.data (((image.height - 1 - r) * image.width + x) * 4))
            (image.data (((image.height - 1 - r) * image.width + x) * 4 + 1))
            (image.data (((image.height - 1 - r) * image.width + x) * 4 + 2)) *
            (maxHeight - minHeight)) := by
  obtain ⟨fmt, w, h, data⟩ := image
  refine ⟨fun hfmt => ?_, fun hfmt => ?_, fun hfmt => ?_⟩ <;> subst hfmt
  · rfl
  · refine ⟨_, rfl, rfl, rfl, ?_⟩
    simp only at hx hr ⊢
    rw [Nat.add_comm x (r * w), rowsDown_getD w _ h r x hr hx]
  · refine ⟨_, rfl, rfl, rfl, ?_⟩
    simp only at hx hr ⊢
    rw [Nat.add_comm x (r * w), rowsDown_getD w _ h r x hr hx]

/-- Witness for C4 on a 2×2 RGB image with pixel bytes `data i = i`,
`minHeight = 0`, `maxHeight = 1`, at grid cell `(0, 0)` — fed by image
row 1 (the bottom row), whose first pixel starts at byte 6. -/
theorem imageLoad_spec_witness :
    0 < 2 ∧ 0 < 2 ∧
    ((Image.mk PixelFormat.RGB 2 2 (fun i => i)).format = PixelFormat.RGB →
      ∃ hf, imageLoad (Image.mk PixelFormat.RGB 2 2 (fun i => i)) 0 1 = some hf ∧
        hf.cols = 2 ∧ hf.rows = 2 ∧
        hf.array.getD 0 0 =
          0 + normalizedHeightPacked ((6 : ℕ) : ℚ) ((7 : ℕ) : ℚ) ((8 : ℕ) : ℚ) *
            (1 - 0)) := by
  refine ⟨by norm_num, by norm_num, ?_⟩
  exact (imageLoad_spec (Image.mk PixelFormat.RGB 2 2 (fun i => i)) 0 1 0 0
    (by norm_num) (by norm_num)).2.1

/-- C7 (amended): with valid parameters, a RAW load succeeds exactly
when the inferred sample width `(fileSize / (width*height)) * 8` is 8 or
16, i.e. when `width*height ≤ fileSize < 3*width*height` — not only at
the exact sizes `width*height` and `2*width*height`; a file of size
`3*width*height` (inferred 24-bit) yields no result. -/
theorem createFromRawBytes_size_iff (bytes : List ℕ) (w h : ℕ)
    (minHeight maxHeight : ℚ) (hw : 2 ≤ w) (hh : 2 ≤ h)
    (hmax : 0 ≤ maxHeight) :
    ((createFromRawBytes bytes w h minHeight maxHeight).isSome ↔
      w * h ≤ bytes.length ∧ bytes.length < 3 * (w * h)) ∧
    (bytes.length = 3 * (w * h) →
      createFromRawBytes bytes w h minHeight maxHeight = none) := by
  have hwh : 0 < w * h := Nat.mul_pos (by omega) (by omega)
  have hparam : ¬(w < 2 ∨ h < 2 ∨ maxHeight < 0) := by
    push_neg
    exact ⟨by omega, by omega, hmax⟩
  have f1 : 1 ≤ bytes.length / (w * h) ↔ w * h ≤ bytes.length :=
    Nat.one_le_div_iff hwh
  have f2 : bytes.length / (w * h) < 3 ↔ bytes.length < 3 * (w * h) :=
    Nat.div_lt_iff_lt_mul hwh
  constructor
  · simp only [createFromRawBytes, if_neg hparam]
    by_cases hcase : bytes.length / (w * h) * 8 ≠ 8 ∧
        bytes.length / (w * h) * 8 ≠ 16
    · rw [if_pos hcase]
      simp only [Option.isSome_none, Bool.false_eq_true, false_iff]
      set q := bytes.length / (w * h)
      set m := w * h
      omega
    · rw [if_neg hcase]
      have hs : (if bytes.length / (w * h) * 8 = 16 then
          some (HeightField.mk w h (rowsDown w (fun y x =>
            minHeight + (((bytes.getD ((y * w + x) * 2) 0 |||
              bytes.getD ((y * w + x) * 2 + 1) 0 <<< 8 : ℕ) : ℚ) / 65535) *
              (maxHeight - minHeight)) h))
        else
          some (HeightField.mk w h (rowsDown w (fun y x =>
            minHeight + (((bytes.getD (y * w + x) 0 : ℕ) : ℚ) / 255) *
              (maxHeight - minHeight)) h))).isSome = true := by
        split_ifs <;> rfl
      rw [hs]
      simp only [true_iff]
      set q := bytes.length / (w * h)
      set m := w * h
      omega
  · intro hlen
    have hq : bytes.length / (w * h) = 3 := by
      rw [hlen, Nat.mul_div_cancel 3 hwh]
    simp only [createFromRawBytes, if_neg hparam, hq]
    norm_num

/-- Witness for C7 at an exactly-8-bit-sized file: 4 zero bytes on a
2×2 RAW load. -/
theorem createFromRawBytes_size_iff_witness :
    2 ≤ 2 ∧ (0 : ℚ) ≤ 100 ∧
    (((createFromRawBytes (List.replicate 4 0) 2 2 0 100).isSome ↔
      2 * 2 ≤ (List.replicate (4 : ℕ) (0 : ℕ)).length ∧
        (List.replicate (4 : ℕ) (0 : ℕ)).length < 3 * (2 * 2)) ∧
    ((List.replicate (4 : ℕ) (0 : ℕ)).length = 3 * (2 * 2) →
      createFromRawBytes (List.replicate 4 0) 2 2 0 100 = none)) := by
  refine ⟨by norm_num, by norm_num, ?_⟩
  exact createFromRawBytes_size_iff (List.replicate 4 0) 2 2 0 100
    (by norm_num) (by norm_num) (by norm_num)

/-- C7 counterexample: a 5-byte file on a 2×2 RAW load is sized neither
`width*height` nor `2*width*height`, yet the inferred bit width is
`(5 / 4) * 8 = 8` and the load succeeds. -/
theorem createFromRawBytes_exact_size_counterexample :
    (List.replicate (5 : ℕ) (0 : ℕ)).length ≠ 2 * 2 * 1 ∧
    (List.replicate (5 : ℕ) (0 : ℕ)).length ≠ 2 * 2 * 2 ∧
    (createFromRawBytes (List.replicate 5 0) 2 2 0 100).isSome = true := by
  refine ⟨by norm_num, by norm_num, ?_⟩
  norm_num [createFromRawBytes]

/-- C8: an 8-bit RAW file of exactly `width*height` bytes, all equal to
`v`, loads into a grid every cell of which is
`minHeight + (v/255) * (maxHeight - minHeight)`. -/
theorem createFromRawBytes_constant (v w h : ℕ) (minHeight maxHeight : ℚ)
    (hw : 2 ≤ w) (hh : 2 ≤ h) (hv : v ≤ 255)
    (hmin : 0 ≤ minHeight) (hmm : minHeight ≤ maxHeight) :
    ∃ hf, createFromRawBytes (List.replicate (w * h) v) w h minHeight maxHeight =
        some hf ∧
      hf.cols = w ∧ hf.rows = h ∧
      ∀ i < w * h, hf.array.getD i 0 =
        minHeight + ((v : ℚ) / 255) * (maxHeight - minHeight) := by
  have hwh : 0 < w * h := Nat.mul_pos (by omega) (by omega)
  have hparam : ¬(w < 2 ∨ h < 2 ∨ maxHeight < 0) := by
    push_neg
    exact ⟨by omega, by omega, by linarith⟩
  have hq : (List.replicate (w * h) v).length / (w * h) = 1 := by
    rw [List.length_replicate, Nat.div_self hwh]
  have h8 : ¬((List.replicate (w * h) v).length / (w * h) * 8 ≠ 8 ∧
      (List.replicate (w * h) v).length / (w * h) * 8 ≠ 16) := by
    rw [hq]; norm_num
  have h16 : ¬((List.replicate (w * h) v).length / (w * h) * 8 = 16) := by
    rw [hq]; norm_num
  simp only [createFromRawBytes, if_neg hparam, if_neg h8, if_neg h16]
  refine ⟨_, rfl, rfl, rfl, ?_⟩
  intro i hi
  have hxw : i % w < w := Nat.mod_lt _ (by omega)
  have hrh : i / w < h := by
    rw [Nat.div_lt_iff_lt_mul (by omega)]
    calc i < w * h := hi
      _ = h * w := Nat.mul_comm w h
  have hieq : i = i / w * w + i % w := by
    rw [Nat.mul_comm]
    exact (Nat.div_add_mod i w).symm
  rw [hieq, rowsDown_getD w _ h (i / w) (i % w) hrh hxw]
  have hlen2 : (h - 1 - i / w) * w + i % w < (List.replicate (w * h) v).length := by
    rw [List.length_replicate]
    have hb2 : h - 1 - i / w < h :=
      Nat.lt_of_le_of_lt (Nat.sub_le (h - 1) (i / w))
        (Nat.sub_lt (Nat.lt_of_lt_of_le Nat.zero_lt_two hh) Nat.one_pos)
    have hbd := index_lt_of_bounds hxw hb2
    linarith
  rw [List.getD_eq_getElem _ _ hlen2, List.getElem_replicate]

/-- Witness for C8: the spec's 4×4 scenario — all bytes 255,
`minHeight = 0`, `maxHeight = 100` — gives a grid of constant 100. -/
theorem createFromRawBytes_constant_witness :
    2 ≤ 4 ∧ (255 : ℕ) ≤ 255 ∧ (0 : ℚ) ≤ 0 ∧ (0 : ℚ) ≤ 100 ∧
    ∃ hf, createFromRawBytes (List.replicate (4 * 4) 255) 4 4 0 100 = some hf ∧
      hf.cols = 4 ∧ hf.rows = 4 ∧
      ∀ i < 4 * 4, hf.array.getD i 0 = (100 : ℚ) := by
  refine ⟨by norm_num, by norm_num, by norm_num, by norm_num, ?_⟩
  obtain ⟨hf, h1, h2, h3, h4⟩ := createFromRawBytes_constant 255 4 4 0 100
    (by norm_num) (by norm_num) (by norm_num) (by norm_num) (by norm_num)
  refine ⟨hf, h1, h2, h3, fun i hi => ?_⟩
  rw [h4 i hi]
  norm_num

/-- `toupper` hits the uppercase letter `u` exactly on `u` itself and
its lowercase form `u + 32`. -/
theorem toupper_eq_upper {c u : ℕ} (hu1 : 65 ≤ u) (hu2 : u ≤ 90) :
    toupper c = u ↔ (c = u ∨ c = u + 32) := by
  unfold toupper
  split_ifs with hc <;> omega

/-- C9: a path of at most 4 bytes yields no result whatever the
collaborators would return (no I/O is consulted); otherwise the last
four bytes are matched as a literal dot plus a case-insensitive
3-character extension: `.png` routes to the image loader (the
width/height parameters are ignored), `.raw` routes to the raw-binary
loader, and any other pattern yields no result. -/
theorem create_dispatch (readAll : List ℕ → Option (List ℕ))
    (imageCreate : List ℕ → Option Image) (path : List ℕ)
    (width height : ℕ) (minHeight maxHeight : ℚ) :
    (path.length ≤ 4 →
      create readAll imageCreate path width height minHeight maxHeight = none) ∧
    (4 < path.length →
      (((path.drop (path.length - 4)).getD 0 0 = 46 ∧
        ((path.drop (path.length - 4)).getD 1 0 = 80 ∨
          (path.drop (path.length - 4)).getD 1 0 = 112) ∧
        ((path.drop (path.length - 4)).getD 2 0 = 78 ∨
          (path.drop (path.length - 4)).getD 2 0 = 110) ∧
        ((path.drop (path.length - 4)).getD 3 0 = 71 ∨
          (path.drop (path.length - 4)).getD 3 0 = 103) →
        create readAll imageCreate path width height minHeight maxHeight =
          match imageCreate path with
          | none => none
          | some image => imageLoad image minHeight maxHeight) ∧
      (((path.drop (path.length - 4)).getD 0 0 = 46 ∧
        ((path.drop (path.length - 4)).getD 1 0 = 82 ∨
          (path.drop (path.length - 4)).getD 1 0 = 114) ∧
        ((path.drop (path.length - 4)).getD 2 0 = 65 ∨
          (path.drop (path.length - 4)).getD 2 0 = 97) ∧
        ((path.drop (path.length - 4)).getD 3 0 = 87 ∨
          (path.drop (path.length - 4)).getD 3 0 = 119)) →
        create readAll imageCreate path width height minHeight maxHeight =
          match readAll path with
          | none => none
          | some bytes => createFromRawBytes bytes width height minHeight maxHeight) ∧
      (¬((path.drop (path.length - 4)).getD 0 0 = 46 ∧
        ((path.drop (path.length - 4)).getD 1 0 = 80 ∨
          (path.drop (path.length - 4)).getD 1 0 = 112) ∧
        ((path.drop (path.length - 4)).getD 2 0 = 78 ∨
          (path.drop (path.length - 4)).getD 2 0 = 110) ∧
        ((path.drop (path.length - 4)).getD 3 0 = 71 ∨
          (path.drop (path.length - 4)).getD 3 0 = 103)) →
       ¬((path.drop (path.length - 4)).getD 0 0 = 46 ∧
        ((path.drop (path.length - 4)).getD 1 0 = 82 ∨
          (path.drop (path.length - 4)).getD 1 0 = 114) ∧
        ((path.drop (path.length - 4)).getD 2 0 = 65 ∨
          (path.drop (path.length - 4)).getD 2 0 = 97) ∧
        ((path.drop (path.length - 4)).getD 3 0 = 87 ∨
          (path.drop (path.length - 4)).getD 3 0 = 119)) →
        create readAll imageCreate path width height minHeight maxHeight = none))) := by
  constructor
  · intro hshort
    simp only [create, if_pos hshort]
  · intro hlen
    have hlen' : ¬path.length ≤ 4 := not_le.mpr hlen
    refine ⟨fun hpng => ?_, fun hraw => ?_, fun hnp hnr => ?_⟩
    · obtain ⟨hdot, hp, hn, hg⟩ := hpng
      simp only [create, if_neg hlen',
        if_pos (And.intro hdot (And.intro
          ((toupper_eq_upper (by norm_num) (by norm_num)).mpr hp) (And.intro
          ((toupper_eq_upper (by norm_num) (by norm_num)).mpr hn)
          ((toupper_eq_upper (by norm_num) (by norm_num)).mpr hg))))]
    · obtain ⟨hdot, hr, ha, hw⟩ := hraw
      have ht1 : toupper ((path.drop (path.length - 4)).getD 1 0) = 82 :=
        (toupper_eq_upper (by norm_num) (by norm_num)).mpr hr
      have hnotpng : ¬((path.drop (path.length - 4)).getD 0 0 = 46 ∧
          toupper ((path.drop (path.length - 4)).getD 1 0) = 80 ∧
          toupper ((path.drop (path.length - 4)).getD 2 0) = 78 ∧
          toupper ((path.drop (path.length - 4)).getD 3 0) = 71) := by
        rintro ⟨-, hp', -, -⟩
        omega
      simp only [create, if_neg hlen', if_neg hnotpng,
        if_pos (And.intro hdot (And.intro ht1 (And.intro
          ((toupper_eq_upper (by norm_num) (by norm_num)).mpr ha)
          ((toupper_eq_upper (by norm_num) (by norm_num)).mpr hw))))]
    · have hnotpng : ¬((path.drop (path.length - 4)).getD 0 0 = 46 ∧
          toupper ((path.drop (path.length - 4)).getD 1 0) = 80 ∧
          toupper ((path.drop (path.length - 4)).getD 2 0) = 78 ∧
          toupper ((path.drop (path.length - 4)).getD 3 0) = 71) := by
        rintro ⟨hdot, hp', hn', hg'⟩
        exact hnp ⟨hdot,
          (toupper_eq_upper (by norm_num) (by norm_num)).mp hp',
          (toupper_eq_upper (by norm_num) (by norm_num)).mp hn',
          (toupper_eq_upper (by norm_num) (by norm_num)).mp hg'⟩
      have hnotraw : ¬((path.drop (path.length - 4)).getD 0 0 = 46 ∧
          toupper ((path.drop (path.length - 4)).getD 1 0) = 82 ∧
          toupper ((path.drop (path.length - 4)).getD 2 0) = 65 ∧
          toupper ((path.drop (path.length - 4)).getD 3 0) = 87) := by
        rintro ⟨hdot, hr', ha', hw'⟩
        exact hnr ⟨hdot,
          (toupper_eq_upper (by norm_num) (by norm_num)).mp hr',
          (toupper_eq_upper (by norm_num) (by norm_num)).mp ha',
          (toupper_eq_upper (by norm_num) (by norm_num)).mp hw'⟩
      simp only [create, if_neg hlen', if_neg hnotpng, if_neg hnotraw]

/-- Witness for C9: dispatching the 5-byte path "a.png" (lowercase,
routed case-insensitively to the image loader) with an image decoder
that fails yields no result. -/
theorem create_dispatch_witness :
    4 < ([97, 46, 112, 110, 103] : List ℕ).length ∧
    create (fun _ => none) (fun _ => none) [97, 46, 112, 110, 103] 0 0 0 1 =
      none := by
  refine ⟨by norm_num, ?_⟩
  exact ((create_dispatch (fun _ => none) (fun _ => none)
    [97, 46, 112, 110, 103] 0 0 0 1).2 (by norm_num)).1
    ⟨rfl, Or.inr rfl, Or.inr rfl, Or.inr rfl⟩

end GamePlay

/-! ## Concrete evaluations of the embedding -/

section Evaluations
open GamePlay

example :
    HeightField.getHeight ⟨2, 2, [0, 1, 2, 3]⟩ (1/2) (1/2) = 3/2 := by
  norm_num [HeightField.getHeight, HeightField.sampleClamped, clampCoord,
    HeightField.read, Int.fract]

example :
    HeightField.getHeight ⟨4, 4, (List.range 16).map (Nat.cast)⟩ 3 3 = 15 := by
  norm_num [HeightField.getHeight, HeightField.sampleClamped, clampCoord,
    HeightField.read, Int.fract]
  simp [List.getElem?_range]

example : normalizedHeightPacked 255 255 255 = 16777215 / 16777216 := by
  norm_num [normalizedHeightPacked]

end Evaluations
